import Mathlib

/-!
Verification of the AST <-> Python-object bridge (`vm/src/stdlib/ast.rs`) and
the cycle-safe dict display (`vm/src/obj/objdict.rs`) of this RustPython tree.

The Rust source is shallowly embedded: Python objects become the inductive
`DynValue` (class identity + payload), AST constants become `Constant`, the
`Node` trait's two directions become pairs of Lean functions, and Python-level
failures become `Except AstError`.  Code that lives outside the two source
files (the generated per-kind registry, `vm.get_attribute`,
`i32::try_from_object`, `extract_elements_func`, `ConversionFlag`'s byte table,
`ReprGuard`) is modelled from the specification; each such definition carries a
doc comment starting with `Modelled from the spec:`.
-/

set_option maxHeartbeats 1000000

instance {ε α : Type} [DecidableEq ε] [DecidableEq α] : DecidableEq (Except ε α) := fun a b =>
  match a, b with
  | .ok x, .ok y => if h : x = y then .isTrue (by rw [h]) else .isFalse (by simp [h])
  | .error x, .error y => if h : x = y then .isTrue (by rw [h]) else .isFalse (by simp [h])
  | .ok _, .error _ => .isFalse (by simp)
  | .error _, .ok _ => .isFalse (by simp)

/-- Opaque carrier for Rust `f64` payloads.  The bridge never computes with
floats: it only moves them between `Constant::Float/Complex` and the dynamic
float/complex objects, so an abstract token is a faithful embedding. -/
structure F64 where
  bits : Nat
  deriving DecidableEq

/-- The failure values the bridge can produce, mirroring the Python exceptions
raised in `ast.rs` (`new_type_error`, `new_value_error`) and by the collaborator
lookups (attribute and overflow errors). -/
inductive AstError where
  | attributeError (cls attr : String)
  | typeError (msg : String)
  | valueError (msg : String)
  | overflowError (msg : String)
  deriving DecidableEq

/-- `ast::Constant` from rustpython-ast: the closed union of literal payloads,
exactly the variants matched in `impl Node for ast::Constant`. -/
inductive Constant where
  | none
  | bool (b : Bool)
  | str (s : String)
  | bytes (b : List Nat)
  | int (i : Int)
  | tuple (elts : List Constant)
  | float (f : F64)
  | complex (real imag : F64)
  | ellipsis

/-- A Python object as the bridge sees it: class identity plus payload.
`int isBoolClass v` covers the integer family (`PyInt` payload), with
`isBoolClass` recording whether the object's class is exactly `bool`
(`object.class().is(&vm.ctx.types.bool_type)`).  `node cls attrs` is an
AST-node object: an `AstNode`-derived class plus its instance dict. -/
inductive DynValue where
  | int (isBoolClass : Bool) (value : Int)
  | float (f : F64)
  | complex (real imag : F64)
  | str (s : String)
  | bytes (b : List Nat)
  | tuple (elts : List DynValue)
  | list (elts : List DynValue)
  | none
  | ellipsis
  | node (cls : String) (attrs : List (String × DynValue))

/-- `vm.is_none`: identity with the `None` singleton. -/
def DynValue.isNone : DynValue → Bool
  | DynValue.none => true
  | _ => false

/-- The runtime class name of a dynamic object (used in attribute errors). -/
def DynValue.className : DynValue → String
  | .int true _ => "bool"
  | .int false _ => "int"
  | .float _ => "float"
  | .complex _ _ => "complex"
  | .str _ => "str"
  | .bytes _ => "bytes"
  | .tuple _ => "tuple"
  | .list _ => "list"
  | DynValue.none => "NoneType"
  | .ellipsis => "ellipsis"
  | .node cls _ => cls

/-- `PyDictRef::set_item` on an attribute store (`dictdatatype::Dict::insert`):
overwrite in place if the key exists, else append, preserving insertion
order. -/
def setItem (attrs : List (String × DynValue)) (key : String) (value : DynValue) :
    List (String × DynValue) :=
  if attrs.any (fun p => p.1 = key) then
    attrs.map (fun p => if p.1 = key then (key, value) else p)
  else attrs ++ [(key, value)]

/-- Ordered lookup in an attribute store: first entry with the given key. -/
def getAttr (attrs : List (String × DynValue)) (key : String) : Option DynValue :=
  (attrs.find? (fun p => p.1 = key)).map Prod.snd

/-- `node_add_location` from `ast.rs`: writes `lineno = row` and
`col_offset = col` into the node object's dict via `set_item`. -/
def node_add_location (attrs : List (String × DynValue)) (row col : Nat) :
    List (String × DynValue) :=
  setItem (setItem attrs "lineno" (.int false (row : Int))) "col_offset" (.int false (col : Int))

/-- Modelled from the spec: `vm.get_attribute` (outside src/) — ordered
get-by-name on the object's attribute store; a missing attribute raises an
`AttributeError` naming the object's runtime class and the attribute. -/
def DynValue.getAttribute : DynValue → String → Option DynValue
  | .node _ attrs, field => getAttr attrs field
  | _, _ => Option.none

/-- `get_node_field` from `ast.rs`: looks the field up on the object; the
`typ` parameter is accepted but unused (the source marks the richer message as
a TODO). -/
def get_node_field (obj : DynValue) (field : String) (_typ : String) : Except AstError DynValue :=
  match obj.getAttribute field with
  | some v => .ok v
  | Option.none => .error (.attributeError obj.className field)

/-- Modelled from the spec: `i32::try_from_object` (outside src/) — reads a
signed integer; out-of-width values fail with an overflow (`OutOfRange`)
error, non-integers with a type error. -/
def i32_try_from_object : DynValue → Except AstError Int
  | .int _ v =>
      if -(2 ^ 31) ≤ v ∧ v < 2 ^ 31 then .ok v
      else .error (.overflowError "Int value cannot fit into i32")
  | _ => .error (.typeError "expected an integer object")

/-- Modelled from the spec: `usize::try_from_object` (outside src/) — unsigned
width-bounded read; negative or too-wide values fail with an overflow
(`OutOfRange`) error. -/
def usize_try_from_object : DynValue → Except AstError Nat
  | .int _ v =>
      if 0 ≤ v ∧ v < 2 ^ 64 then .ok v.toNat
      else .error (.overflowError "Int value cannot fit into usize")
  | _ => .error (.typeError "expected an integer object")

/-- `impl Node for String`, to-dynamic direction: `vm.ctx.new_str`. -/
def String.ast_to_object (s : String) : DynValue := .str s

/-- `impl Node for String`, from-dynamic direction: `PyStrRef::try_from_object`
(downcast; anything but a str object is a type error). -/
def String.ast_from_object : DynValue → Except AstError String
  | .str s => .ok s
  | _ => .error (.typeError "expected a str object")

/-- `impl Node for usize`, to-dynamic direction: `vm.ctx.new_int`. -/
def UsizeNode.ast_to_object (n : Nat) : DynValue := .int false (n : Int)

/-- `impl Node for usize`, from-dynamic direction. -/
def UsizeNode.ast_from_object (object : DynValue) : Except AstError Nat :=
  usize_try_from_object object

/-- `impl Node for bool`, to-dynamic direction: `vm.ctx.new_int(self as u8)` —
note this builds an `int`-class object, not a `bool`-class one. -/
def Bool.ast_to_object (b : Bool) : DynValue := .int false (if b then 1 else 0)

/-- `impl Node for bool`, from-dynamic direction:
`i32::try_from_object(vm, object).map(|i| i != 0)`. -/
def Bool.ast_from_object (object : DynValue) : Except AstError Bool :=
  (i32_try_from_object object).map (fun i => decide (i ≠ 0))

/-- Fail-fast element-wise conversion of a list (the behaviour of
`Iterator::collect::<Result<_, _>>` and of element-wise extraction). -/
def mapExcept (f : α → Except AstError β) : List α → Except AstError (List β)
  | [] => .ok []
  | x :: xs => do
      let y ← f x
      let ys ← mapExcept f xs
      .ok (y :: ys)

/-- Modelled from the spec: `vm.extract_elements_func` (outside src/) —
iterates the dynamic value's iteration protocol in order, converting each
element and failing on the first element that fails; a non-iterable input is
a type error.  The ordered sequences of this model are lists and tuples. -/
def extract_elements_func (f : DynValue → Except AstError α) :
    DynValue → Except AstError (List α)
  | .list elts => mapExcept f elts
  | .tuple elts => mapExcept f elts
  | _ => .error (.typeError "object is not iterable")

/-- `impl Node for Vec<T>`, to-dynamic direction: a fresh list object holding
each element's conversion, in order. -/
def VecNode.ast_to_object (toObj : α → DynValue) (l : List α) : DynValue :=
  .list (l.map toObj)

/-- `impl Node for Vec<T>`, from-dynamic direction: `extract_elements_func`. -/
def VecNode.ast_from_object (fromObj : DynValue → Except AstError α) (object : DynValue) :
    Except AstError (List α) :=
  extract_elements_func fromObj object

/-- `impl Node for Option<T>`, to-dynamic direction: `Some` defers to the
inner codec, `None` becomes the `None` singleton. -/
def OptionNode.ast_to_object (toObj : α → DynValue) : Option α → DynValue
  | some node => toObj node
  | Option.none => DynValue.none

/-- `impl Node for Option<T>`, from-dynamic direction: the `None` singleton
becomes `None`, anything else recurses into the inner codec. -/
def OptionNode.ast_from_object (fromObj : DynValue → Except AstError α) (object : DynValue) :
    Except AstError (Option α) :=
  if object.isNone then .ok Option.none
  else (fromObj object).map some

/-- `impl Node for Box<T>`, to-dynamic direction: pure indirection. -/
def BoxNode.ast_to_object (toObj : α → DynValue) (v : α) : DynValue := toObj v

/-- `impl Node for Box<T>`, from-dynamic direction: pure indirection. -/
def BoxNode.ast_from_object (fromObj : DynValue → Except AstError α) (object : DynValue) :
    Except AstError α :=
  fromObj object

mutual

/-- `impl Node for ast::Constant`, to-dynamic direction (total): each variant
to its canonical object; `Bool` builds a `bool`-class integer, `Int` an
`int`-class integer, tuples recurse element-wise. -/
def Constant.ast_to_object : Constant → DynValue
  | Constant.none => DynValue.none
  | .bool b => .int true (if b then 1 else 0)
  | .str s => .str s
  | .bytes b => .bytes b
  | .int i => .int false i
  | .tuple t => .tuple (Constant.listToObject t)
  | .float f => .float f
  | .complex re im => .complex re im
  | .ellipsis => .ellipsis

/-- Element-wise to-dynamic for tuple payloads. -/
def Constant.listToObject : List Constant → List DynValue
  | [] => []
  | c :: cs => Constant.ast_to_object c :: Constant.listToObject cs

end

mutual

/-- `impl Node for ast::Constant`, from-dynamic direction: the `match_class!`
chain of `ast.rs`.  Inside the integer-family arm the class-identity test
against `bool_type` decides `Bool` vs `Int`; tuples recurse element-wise and
abort on the first element error; any unrecognized class is the type error
`unsupported type for constant`. -/
def Constant.ast_from_object : DynValue → Except AstError Constant
  | .int isBoolClass v =>
      .ok (if isBoolClass then Constant.bool (decide (v ≠ 0)) else Constant.int v)
  | .float f => .ok (.float f)
  | .complex re im => .ok (.complex re im)
  | .str s => .ok (.str s)
  | .bytes b => .ok (.bytes b)
  | .tuple elts => (Constant.listFromObject elts).map Constant.tuple
  | DynValue.none => .ok Constant.none
  | .ellipsis => .ok Constant.ellipsis
  | _ => .error (.typeError "unsupported type for constant")

/-- Element-wise from-dynamic for tuple payloads (first error aborts). -/
def Constant.listFromObject : List DynValue → Except AstError (List Constant)
  | [] => .ok []
  | o :: os => do
      let c ← Constant.ast_from_object o
      let cs ← Constant.listFromObject os
      .ok (c :: cs)

end

/-- Modelled from the spec: `ast::ConversionFlag` (outside src/) — a closed
flag enumeration with a small number of ordinals, encoded as a single
non-negative byte-range integer. -/
inductive ConversionFlag where
  | flagNone
  | flagStr
  | flagAscii
  | flagRepr
  deriving DecidableEq

/-- The variant's ordinal (`self as u8`). -/
def ConversionFlag.toByte : ConversionFlag → Nat
  | .flagNone => 0
  | .flagStr => 1
  | .flagAscii => 2
  | .flagRepr => 3

/-- Modelled from the spec: `ConversionFlag::try_from_byte` (outside src/) —
recognizes exactly the closed set's ordinals. -/
def ConversionFlag.try_from_byte : Nat → Option ConversionFlag
  | 0 => some .flagNone
  | 1 => some .flagStr
  | 2 => some .flagAscii
  | 3 => some .flagRepr
  | _ => Option.none

/-- `impl Node for ast::ConversionFlag`, to-dynamic direction:
`vm.ctx.new_int(self as u8)`. -/
def ConversionFlag.ast_to_object (f : ConversionFlag) : DynValue :=
  .int false (f.toByte : Int)

/-- `impl Node for ast::ConversionFlag`, from-dynamic direction: read an i32,
narrow with `to_u8` (failing for anything outside `0..=255`), look the byte
up; a failed narrow or lookup is the value error `invalid conversion flag`. -/
def ConversionFlag.ast_from_object (object : DynValue) : Except AstError ConversionFlag := do
  let i ← i32_try_from_object object
  match (if 0 ≤ i ∧ i ≤ 255 then ConversionFlag.try_from_byte i.toNat else Option.none) with
  | some f => .ok f
  | Option.none => .error (.valueError "invalid conversion flag")

/-- Modelled from the spec: the generated node-kind registry (the `gen` module
is outside src/).  A field's declared shape is one of the spec's
scalar / optional / sequence / boxed / nested-node shapes; a nested-node shape
carries the closed list of alternative kinds (class name plus ordered field
layout) the generated `ast_from_object` dispatches over. -/
inductive FieldShape where
  | constantS
  | strS
  | usizeS
  | boolS
  | flagS
  | optionalS (s : FieldShape)
  | sequenceS (s : FieldShape)
  | boxedS (s : FieldShape)
  | nodeS (alts : List (String × List (String × FieldShape)))

/-- Modelled from the spec: a typed field value — the payloads a TypedNode
tree can hold.  `nodeV kind fields loc` is a TypedNode of the given kind with
its named field values in declaration order and an optional source location
(`Located` nodes carry `(row, col)`). -/
inductive FieldVal where
  | const (c : Constant)
  | strV (s : String)
  | usizeV (n : Nat)
  | boolV (b : Bool)
  | flagV (f : ConversionFlag)
  | optV (o : Option FieldVal)
  | seqV (l : List FieldVal)
  | nodeV (kind : String) (fields : List (String × FieldVal)) (loc : Option (Nat × Nat))

/-- Attach the location attributes (if any) after the field attributes, the
way each generated `ast_to_object` calls `node_add_location` last. -/
def attachLoc : Option (Nat × Nat) → List (String × DynValue) → List (String × DynValue)
  | Option.none, attrs => attrs
  | some (r, c), attrs => node_add_location attrs r c

mutual

/-- Modelled from the spec: the generated `ast_to_object` direction of the
node protocol — total; scalars and constants defer to their codecs, optionals
map `None` to the `None` singleton, sequences build fresh lists, boxes are
transparent, and a node becomes a class-tagged object whose attributes are its
fields in declaration order followed by the location attributes. -/
def toDyn : FieldVal → DynValue
  | .const c => Constant.ast_to_object c
  | .strV s => String.ast_to_object s
  | .usizeV n => UsizeNode.ast_to_object n
  | .boolV b => Bool.ast_to_object b
  | .flagV f => ConversionFlag.ast_to_object f
  | .optV Option.none => DynValue.none
  | .optV (some v) => toDyn v
  | .seqV l => .list (toDynList l)
  | .nodeV kind fields loc => .node kind (attachLoc loc (toDynFields fields))

/-- Element-wise `toDyn` for sequence fields. -/
def toDynList : List FieldVal → List DynValue
  | [] => []
  | v :: vs => toDyn v :: toDynList vs

/-- `toDyn` over a node's named fields, keeping declaration order. -/
def toDynFields : List (String × FieldVal) → List (String × DynValue)
  | [] => []
  | (n, v) :: rest => (n, toDyn v) :: toDynFields rest

end

mutual

/-- Modelled from the spec: the generated `ast_from_object` direction — class
dispatch over the declared alternatives, then per declared field a
`get_node_field` lookup followed by the field codec, failing fast. -/
def fromDyn : FieldShape → DynValue → Except AstError FieldVal
  | .constantS, o => (Constant.ast_from_object o).map .const
  | .strS, o => (String.ast_from_object o).map .strV
  | .usizeS, o => (UsizeNode.ast_from_object o).map .usizeV
  | .boolS, o => (Bool.ast_from_object o).map .boolV
  | .flagS, o => (ConversionFlag.ast_from_object o).map .flagV
  | .optionalS s, o =>
      if o.isNone then .ok (.optV Option.none)
      else (fromDyn s o).map (fun v => .optV (some v))
  | .sequenceS s, o =>
      match o with
      | .list elts => (fromDynList s elts).map .seqV
      | .tuple elts => (fromDynList s elts).map .seqV
      | _ => .error (.typeError "object is not iterable")
  | .boxedS s, o => fromDyn s o
  | .nodeS alts, o =>
      match o with
      | .node cls attrs => fromDynAlts alts cls (.node cls attrs)
      | _ => .error (.typeError "expected an AST node object")
termination_by s o => (sizeOf s, sizeOf o)

/-- Element-wise `fromDyn` for sequence fields (first error aborts). -/
def fromDynList : FieldShape → List DynValue → Except AstError (List FieldVal)
  | _, [] => .ok []
  | s, o :: os => do
      let v ← fromDyn s o
      let vs ← fromDynList s os
      .ok (v :: vs)
termination_by s os => (sizeOf s, sizeOf os)

/-- Modelled from the spec: the generated class-dispatch chain — try each
declared kind in order against the object's class; no match is a type error.
The reconstructed node's location is not read back (it is `none`). -/
def fromDynAlts (alts : List (String × List (String × FieldShape))) (cls : String)
    (obj : DynValue) : Except AstError FieldVal :=
  match alts with
  | [] => .error (.typeError "unexpected node class")
  | (k, fs) :: rest =>
      if k = cls then (fromDynFields fs obj cls).map (fun l => .nodeV cls l Option.none)
      else fromDynAlts rest cls obj
termination_by (sizeOf alts, sizeOf obj)

/-- Modelled from the spec: the generated per-field loop — for each declared
required field, `get_node_field` then the field codec, failing fast. -/
def fromDynFields (fs : List (String × FieldShape)) (obj : DynValue) (typ : String) :
    Except AstError (List (String × FieldVal)) :=
  match fs with
  | [] => .ok []
  | (name, s) :: rest => do
      let a ← get_node_field obj name typ
      let v ← fromDyn s a
      let vs ← fromDynFields rest obj typ
      .ok ((name, v) :: vs)
termination_by (sizeOf fs, sizeOf obj)

end

/-- Names of a declared field layout are unique and distinct from the two
location attributes (a property of the generated registry). -/
def fieldNamesOk (names : List String) : Bool :=
  decide names.Nodup && decide ("lineno" ∉ names) && decide ("col_offset" ∉ names)

mutual

/-- Well-formedness of a declared shape: every alternative's field names are
unique and distinct from the location attributes, recursively. -/
def wfShape : FieldShape → Bool
  | .constantS => true
  | .strS => true
  | .usizeS => true
  | .boolS => true
  | .flagS => true
  | .optionalS s => wfShape s
  | .sequenceS s => wfShape s
  | .boxedS s => wfShape s
  | .nodeS alts => wfAlts alts

/-- Well-formedness of an alternative list. -/
def wfAlts : List (String × List (String × FieldShape)) → Bool
  | [] => true
  | (_, fs) :: rest => fieldNamesOk (fs.map Prod.fst) && wfFieldShapes fs && wfAlts rest

/-- Well-formedness of a field layout. -/
def wfFieldShapes : List (String × FieldShape) → Bool
  | [] => true
  | (_, s) :: rest => wfShape s && wfFieldShapes rest

end

mutual

/-- A typed value conforms to a declared shape: scalars match their scalar
shapes (usize values fit the width), optionals and sequences recurse, boxes
are transparent, and a node's kind is one of the declared alternatives with
its fields matching that alternative's layout name-for-name in order. -/
def conforms : FieldShape → FieldVal → Bool
  | .constantS, .const _ => true
  | .strS, .strV _ => true
  | .usizeS, .usizeV n => decide (n < 2 ^ 64)
  | .boolS, .boolV _ => true
  | .flagS, .flagV _ => true
  | .optionalS _, .optV Option.none => true
  | .optionalS s, .optV (some v) => conforms s v
  | .sequenceS s, .seqV l => conformsList s l
  | .boxedS s, v => conforms s v
  | .nodeS alts, .nodeV kind fields _ => conformsAlts alts kind fields
  | _, _ => false
termination_by s v => (sizeOf s, sizeOf v)

/-- Element conformance for sequence fields. -/
def conformsList (s : FieldShape) (l : List FieldVal) : Bool :=
  match l with
  | [] => true
  | v :: vs => conforms s v && conformsList s vs
termination_by (sizeOf s, sizeOf l)

/-- Kind dispatch for node conformance, mirroring `fromDynAlts`. -/
def conformsAlts (alts : List (String × List (String × FieldShape))) (kind : String)
    (fields : List (String × FieldVal)) : Bool :=
  match alts with
  | [] => false
  | (k, fs) :: rest => if k = kind then conformsFields fs fields else conformsAlts rest kind fields
termination_by (sizeOf alts, sizeOf fields)

/-- Field-by-field conformance: same names in the same order, each value
conforming to its declared shape. -/
def conformsFields (fs : List (String × FieldShape)) (fields : List (String × FieldVal)) : Bool :=
  match fs, fields with
  | [], [] => true
  | (n, s) :: rs, (n', v) :: rv => decide (n = n') && conforms s v && conformsFields rs rv
  | _, _ => false
termination_by (sizeOf fs, sizeOf fields)

end

mutual

/-- No optional field holds a present value whose dynamic encoding is the
`None` sentinel (such a value is indistinguishable from the absent value on
the dynamic side). -/
def goodOpt : FieldVal → Bool
  | .const _ => true
  | .strV _ => true
  | .usizeV _ => true
  | .boolV _ => true
  | .flagV _ => true
  | .optV Option.none => true
  | .optV (some v) => !(toDyn v).isNone && goodOpt v
  | .seqV l => goodOptList l
  | .nodeV _ fields _ => goodOptFields fields

/-- `goodOpt` over sequence elements. -/
def goodOptList : List FieldVal → Bool
  | [] => true
  | v :: vs => goodOpt v && goodOptList vs

/-- `goodOpt` over a node's fields. -/
def goodOptFields : List (String × FieldVal) → Bool
  | [] => true
  | (_, v) :: rest => goodOpt v && goodOptFields rest

end

mutual

/-- Erase source locations from a typed value, recursively (what a round trip
through the dynamic world preserves: everything but locations). -/
def stripLoc : FieldVal → FieldVal
  | .const c => .const c
  | .strV s => .strV s
  | .usizeV n => .usizeV n
  | .boolV b => .boolV b
  | .flagV f => .flagV f
  | .optV Option.none => .optV Option.none
  | .optV (some v) => .optV (some (stripLoc v))
  | .seqV l => .seqV (stripLocList l)
  | .nodeV kind fields _ => .nodeV kind (stripLocFields fields) Option.none

/-- `stripLoc` over sequence elements. -/
def stripLocList : List FieldVal → List FieldVal
  | [] => []
  | v :: vs => stripLoc v :: stripLocList vs

/-- `stripLoc` over a node's fields. -/
def stripLocFields : List (String × FieldVal) → List (String × FieldVal)
  | [] => []
  | (n, v) :: rest => (n, stripLoc v) :: stripLocFields rest

end

/-- A value in the display model: either a non-dict object together with its
(already computed) display text, or a reference to a dict in the store. -/
inductive RVal where
  | prim (text : String)
  | dictRef (id : Nat)
  deriving DecidableEq

/-- The heap of dicts: object identity to ordered (key, value) entries.
Entries may reference any dict, including their own, so graphs can be
cyclic. -/
def DictStore := List (Nat × List (RVal × RVal))

/-- Entries of a dict in the store (first binding of the identity). -/
def lookupDict (store : DictStore) (id : Nat) : Option (List (RVal × RVal)) :=
  (store.find? (fun p => p.1 = id)).map Prod.snd

/-- Dict identities present in the store but not yet being displayed: the
quantity that shrinks every time the display logic enters a new dict. -/
def guardGas (store : DictStore) (guard : List Nat) : Nat :=
  (store.map Prod.fst).countP (fun a => decide (a ∉ guard))

theorem guardGas_lt (store : DictStore) (guard : List Nat) (id : Nat)
    (hmem : id ∈ store.map Prod.fst) (hng : id ∉ guard) :
    guardGas store (id :: guard) < guardGas store guard := by
  unfold guardGas
  generalize store.map Prod.fst = l at hmem
  induction l with
  | nil => simp at hmem
  | cons x rest ih =>
    have hle : rest.countP (fun a => decide (a ∉ id :: guard)) ≤
        rest.countP (fun a => decide (a ∉ guard)) := by
      apply List.countP_mono_left
      intro a _ ha
      simp only [decide_eq_true_eq] at ha ⊢
      intro hc
      exact ha (List.mem_cons_of_mem _ hc)
    rcases List.mem_cons.mp hmem with h | h
    · rw [List.countP_cons, List.countP_cons]
      have h1 : (decide (x ∉ id :: guard)) = false := by subst h; simp
      have h2 : (decide (x ∉ guard)) = true := by subst h; simp [hng]
      rw [h1, h2]
      simp only [Bool.false_eq_true, if_false, if_true, Nat.add_zero]
      omega
    · have hlt := ih h
      rw [List.countP_cons, List.countP_cons]
      by_cases hx : x ∉ id :: guard
      · have hx2 : x ∉ guard := fun hc => hx (List.mem_cons_of_mem _ hc)
        have e1 : (decide (x ∉ id :: guard)) = true := by simpa using hx
        have e2 : (decide (x ∉ guard)) = true := by simpa using hx2
        rw [e1, e2]
        simp only [if_true]
        omega
      · have e1 : (decide (x ∉ id :: guard)) = false := by simpa using hx
        rw [e1]
        simp only [Bool.false_eq_true, if_false]
        split
        · omega
        · omega

theorem lookupDict_mem (store : DictStore) (id : Nat) (entries : List (RVal × RVal))
    (h : lookupDict store id = some entries) : id ∈ store.map Prod.fst := by
  unfold lookupDict at h
  rcases ho : (store.find? (fun p => p.1 = id)) with _ | p
  · rw [ho] at h
    simp at h
  · have hp := List.find?_some ho
    have hmem := List.mem_of_find?_eq_some ho
    simp only [decide_eq_true_eq] at hp
    rw [← hp]
    exact List.mem_map_of_mem Prod.fst hmem

mutual

/-- `PyDictRef::repr` from `objdict.rs`, with `ReprGuard` modelled from the
spec as an explicit set of in-progress identities: if this dict is already
being displayed, emit the placeholder; otherwise format each (key, value)
pair as `key: value`, joined by `, ` inside braces, displaying nested values
with this dict added to the guard. -/
def dict_repr (store : DictStore) (guard : List Nat) (id : Nat) : String :=
  if id ∈ guard then "\x7b...\x7d"
  else
    match h : lookupDict store id with
    | some entries =>
        "\x7b" ++ String.intercalate ", " (repr_parts store (id :: guard) entries) ++ "\x7d"
    | Option.none => "\x7b\x7d"
termination_by (guardGas store guard, 0, 0)
decreasing_by
  apply Prod.Lex.left
  exact guardGas_lt store guard id (lookupDict_mem store id entries h) (by assumption)

/-- `vm.to_repr` on a display-model value: primitives carry their text, dict
references recurse into `dict_repr`. -/
def val_repr (store : DictStore) (guard : List Nat) : RVal → String
  | .prim text => text
  | .dictRef id => dict_repr store guard id
termination_by _v => (guardGas store guard, 1, 0)
decreasing_by
  apply Prod.Lex.right
  exact Prod.Lex.left _ _ (by omega)

/-- The `key_repr: value_repr` parts of a dict display, in entry order. -/
def repr_parts (store : DictStore) (guard : List Nat) : List (RVal × RVal) → List String
  | [] => []
  | (k, v) :: rest =>
      (val_repr store guard k ++ ": " ++ val_repr store guard v) :: repr_parts store guard rest
termination_by entries => (guardGas store guard, 2, entries.length)
decreasing_by
  all_goals first
  | (apply Prod.Lex.right; exact Prod.Lex.left _ _ (by omega))
  | (apply Prod.Lex.right; apply Prod.Lex.right; simp [List.length_cons])

end

theorem find?_replace_ne (attrs : List (String × DynValue)) (k k' : String) (v : DynValue)
    (h : k ≠ k') :
    (attrs.map (fun p => if p.1 = k' then (k', v) else p)).find? (fun p => p.1 = k) =
      attrs.find? (fun p => p.1 = k) := by
  induction attrs with
  | nil => simp
  | cons p rest ih =>
    by_cases h1 : p.1 = k'
    · have hpk : ¬ (p.1 = k) := by rw [h1]; exact fun hh => h hh.symm
      simp only [List.map_cons, if_pos h1]
      rw [List.find?_cons_of_neg, List.find?_cons_of_neg]
      · exact ih
      · simp [hpk]
      · simp
        exact fun hh => h hh.symm
    · simp only [List.map_cons, if_neg h1]
      by_cases h2 : p.1 = k
      · rw [List.find?_cons_of_pos, List.find?_cons_of_pos] <;> simp [h2]
      · rw [List.find?_cons_of_neg, List.find?_cons_of_neg]
        · exact ih
        · simp [h2]
        · simp [h2]

theorem getAttr_setItem_ne (attrs : List (String × DynValue)) (k k' : String) (v : DynValue)
    (h : k ≠ k') :
    getAttr (setItem attrs k' v) k = getAttr attrs k := by
  unfold setItem
  split
  · unfold getAttr
    rw [find?_replace_ne attrs k k' v h]
  · unfold getAttr
    rw [List.find?_append]
    have hnone : List.find? (fun p => decide (p.1 = k)) [(k', v)] = Option.none := by
      simp
      exact fun hh => h hh.symm
    rw [hnone, Option.or_none]

theorem find?_replace_self (attrs : List (String × DynValue)) (k : String) (v : DynValue)
    (hany : attrs.any (fun p => p.1 = k)) :
    (attrs.map (fun p => if p.1 = k then (k, v) else p)).find? (fun p => p.1 = k) =
      some (k, v) := by
  induction attrs with
  | nil => simp at hany
  | cons p rest ih =>
    by_cases h1 : p.1 = k
    · simp only [List.map_cons, if_pos h1]
      rw [List.find?_cons_of_pos] <;> simp
    · simp only [List.map_cons, if_neg h1]
      rw [List.find?_cons_of_neg]
      · apply ih
        simp only [List.any_cons, Bool.or_eq_true] at hany
        rcases hany with h | h
        · exact absurd (by simpa using h) h1
        · exact h
      · simp [h1]

theorem getAttr_setItem_self (attrs : List (String × DynValue)) (k : String) (v : DynValue) :
    getAttr (setItem attrs k v) k = some v := by
  unfold setItem
  split
  · rename_i hany
    unfold getAttr
    rw [find?_replace_self attrs k v hany]
    rfl
  · rename_i hany
    unfold getAttr
    rw [List.find?_append]
    have hn : List.find? (fun p => decide (p.1 = k)) attrs = Option.none := by
      rw [List.find?_eq_none]
      intro x hx
      simp only [decide_eq_true_eq]
      intro hxk
      exact hany (List.any_eq_true.mpr ⟨x, hx, by simp [hxk]⟩)
    rw [hn]
    simp

theorem getAttr_node_add_location (attrs : List (String × DynValue)) (row col : Nat)
    (k : String) (h1 : k ≠ "lineno") (h2 : k ≠ "col_offset") :
    getAttr (node_add_location attrs row col) k = getAttr attrs k := by
  unfold node_add_location
  rw [getAttr_setItem_ne _ _ _ _ h2, getAttr_setItem_ne _ _ _ _ h1]

theorem getAttr_attachLoc (loc : Option (Nat × Nat)) (attrs : List (String × DynValue))
    (k : String) (h1 : k ≠ "lineno") (h2 : k ≠ "col_offset") :
    getAttr (attachLoc loc attrs) k = getAttr attrs k := by
  match loc with
  | Option.none => rfl
  | some (r, c) => exact getAttr_node_add_location attrs r c k h1 h2

theorem getAttr_toDynFields (fields : List (String × FieldVal)) (n : String) (v : FieldVal)
    (hmem : (n, v) ∈ fields) (hnd : (fields.map Prod.fst).Nodup) :
    getAttr (toDynFields fields) n = some (toDyn v) := by
  induction fields with
  | nil => simp at hmem
  | cons p rest ih =>
    obtain ⟨m, w⟩ := p
    rw [List.map_cons, List.nodup_cons] at hnd
    rcases List.mem_cons.mp hmem with h | h
    · injection h with he1 he2
      subst he1
      subst he2
      rw [toDynFields]
      unfold getAttr
      rw [List.find?_cons_of_pos _ (by simp)]
      rfl
    · have hmn : m ≠ n := by
        intro he
        subst he
        exact hnd.1 (List.mem_map.mpr ⟨(m, v), h, rfl⟩)
      rw [toDynFields]
      unfold getAttr
      rw [List.find?_cons_of_neg _ (by simp [hmn])]
      exact ih h hnd.2

theorem conformsFields_names (fs : List (String × FieldShape)) (fields : List (String × FieldVal))
    (hc : conformsFields fs fields = true) :
    fields.map Prod.fst = fs.map Prod.fst := by
  induction fs generalizing fields with
  | nil =>
    cases fields with
    | nil => rfl
    | cons p rest => simp [conformsFields] at hc
  | cons p rest ih =>
    obtain ⟨n, s⟩ := p
    cases fields with
    | nil => simp [conformsFields] at hc
    | cons q rv =>
      obtain ⟨n', v⟩ := q
      rw [conformsFields] at hc
      simp only [Bool.and_eq_true, decide_eq_true_eq] at hc
      obtain ⟨⟨he, _⟩, hrest⟩ := hc
      simp only [List.map_cons]
      rw [ih rv hrest, he]

mutual

theorem constant_roundtrip : ∀ c : Constant,
    Constant.ast_from_object (Constant.ast_to_object c) = .ok c
  | Constant.none => rfl
  | .bool b => by cases b <;> rfl
  | .str _ => rfl
  | .bytes _ => rfl
  | .int _ => rfl
  | .tuple t => by
      rw [Constant.ast_to_object, Constant.ast_from_object, constant_list_roundtrip t]
      rfl
  | .float _ => rfl
  | .complex _ _ => rfl
  | .ellipsis => rfl

theorem constant_list_roundtrip : ∀ l : List Constant,
    Constant.listFromObject (Constant.listToObject l) = .ok l
  | [] => rfl
  | c :: cs => by
      rw [Constant.listToObject, Constant.listFromObject, constant_roundtrip c,
        constant_list_roundtrip cs]
      rfl

end

theorem string_roundtrip (s : String) :
    String.ast_from_object (String.ast_to_object s) = .ok s := rfl

theorem usize_roundtrip (n : Nat) (h : n < 2 ^ 64) :
    UsizeNode.ast_from_object (UsizeNode.ast_to_object n) = .ok n := by
  simp only [UsizeNode.ast_from_object, UsizeNode.ast_to_object, usize_try_from_object]
  rw [if_pos ⟨Int.natCast_nonneg n, by exact_mod_cast h⟩]
  simp

theorem bool_roundtrip (b : Bool) :
    Bool.ast_from_object (Bool.ast_to_object b) = .ok b := by
  cases b <;> rfl

theorem flag_roundtrip (f : ConversionFlag) :
    ConversionFlag.ast_from_object (ConversionFlag.ast_to_object f) = .ok f := by
  cases f <;> rfl

theorem conforms_constantS_inv (v : FieldVal) (h : conforms .constantS v = true) :
    ∃ c, v = .const c := by
  cases v <;> first | exact ⟨_, rfl⟩ | simp [conforms] at h

theorem conforms_strS_inv (v : FieldVal) (h : conforms .strS v = true) :
    ∃ s, v = .strV s := by
  cases v <;> first | exact ⟨_, rfl⟩ | simp [conforms] at h

theorem conforms_usizeS_inv (v : FieldVal) (h : conforms .usizeS v = true) :
    ∃ n, v = .usizeV n ∧ n < 2 ^ 64 := by
  cases v <;> simp_all [conforms]

theorem conforms_boolS_inv (v : FieldVal) (h : conforms .boolS v = true) :
    ∃ b, v = .boolV b := by
  cases v <;> first | exact ⟨_, rfl⟩ | simp [conforms] at h

theorem conforms_flagS_inv (v : FieldVal) (h : conforms .flagS v = true) :
    ∃ f, v = .flagV f := by
  cases v <;> first | exact ⟨_, rfl⟩ | simp [conforms] at h

theorem conforms_optionalS_inv (s : FieldShape) (v : FieldVal)
    (h : conforms (.optionalS s) v = true) :
    v = .optV Option.none ∨ ∃ w, v = .optV (some w) ∧ conforms s w = true := by
  cases v with
  | optV o =>
    cases o with
    | none => exact Or.inl rfl
    | some w =>
      refine Or.inr ⟨w, rfl, ?_⟩
      simpa [conforms] using h
  | const c => simp [conforms] at h
  | strV s => simp [conforms] at h
  | usizeV n => simp [conforms] at h
  | boolV b => simp [conforms] at h
  | flagV f => simp [conforms] at h
  | seqV l => simp [conforms] at h
  | nodeV kind fields loc => simp [conforms] at h

theorem conforms_sequenceS_inv (s : FieldShape) (v : FieldVal)
    (h : conforms (.sequenceS s) v = true) :
    ∃ l, v = .seqV l ∧ conformsList s l = true := by
  cases v with
  | seqV l =>
    refine ⟨l, rfl, ?_⟩
    simpa [conforms] using h
  | const c => simp [conforms] at h
  | strV s => simp [conforms] at h
  | usizeV n => simp [conforms] at h
  | boolV b => simp [conforms] at h
  | flagV f => simp [conforms] at h
  | optV o => cases o <;> simp [conforms] at h
  | nodeV kind fields loc => simp [conforms] at h

theorem conforms_nodeS_inv (alts : List (String × List (String × FieldShape))) (v : FieldVal)
    (h : conforms (.nodeS alts) v = true) :
    ∃ kind fields loc, v = .nodeV kind fields loc ∧ conformsAlts alts kind fields = true := by
  cases v with
  | nodeV kind fields loc =>
    refine ⟨kind, fields, loc, rfl, ?_⟩
    simpa [conforms] using h
  | const c => simp [conforms] at h
  | strV s => simp [conforms] at h
  | usizeV n => simp [conforms] at h
  | boolV b => simp [conforms] at h
  | flagV f => simp [conforms] at h
  | optV o => cases o <;> simp [conforms] at h
  | seqV l => simp [conforms] at h

mutual

theorem roundtrip_val : ∀ (s : FieldShape) (v : FieldVal), wfShape s = true →
    conforms s v = true → goodOpt v = true → fromDyn s (toDyn v) = .ok (stripLoc v)
  | .constantS, v, _, hc, _ => by
    obtain ⟨c, rfl⟩ := conforms_constantS_inv v hc
    simp [toDyn, fromDyn, constant_roundtrip c, stripLoc, Except.map]
  | .strS, v, _, hc, _ => by
    obtain ⟨t, rfl⟩ := conforms_strS_inv v hc
    simp [toDyn, fromDyn, string_roundtrip t, stripLoc, Except.map]
  | .usizeS, v, _, hc, _ => by
    obtain ⟨n, rfl, hn⟩ := conforms_usizeS_inv v hc
    have h1 : toDyn (.usizeV n) = UsizeNode.ast_to_object n := by simp [toDyn]
    have h2 : fromDyn .usizeS (UsizeNode.ast_to_object n) =
        (UsizeNode.ast_from_object (UsizeNode.ast_to_object n)).map .usizeV := by
      simp [fromDyn]
    rw [h1, h2, usize_roundtrip n hn]
    simp [stripLoc, Except.map]
  | .boolS, v, _, hc, _ => by
    obtain ⟨b, rfl⟩ := conforms_boolS_inv v hc
    have h1 : toDyn (.boolV b) = Bool.ast_to_object b := by simp [toDyn]
    have h2 : fromDyn .boolS (Bool.ast_to_object b) =
        (Bool.ast_from_object (Bool.ast_to_object b)).map .boolV := by
      simp [fromDyn]
    rw [h1, h2, bool_roundtrip b]
    simp [stripLoc, Except.map]
  | .flagS, v, _, hc, _ => by
    obtain ⟨f, rfl⟩ := conforms_flagS_inv v hc
    have h1 : toDyn (.flagV f) = ConversionFlag.ast_to_object f := by simp [toDyn]
    have h2 : fromDyn .flagS (ConversionFlag.ast_to_object f) =
        (ConversionFlag.ast_from_object (ConversionFlag.ast_to_object f)).map .flagV := by
      simp [fromDyn]
    rw [h1, h2, flag_roundtrip f]
    simp [stripLoc, Except.map]
  | .optionalS s, v, hw, hc, hg => by
    have hw' : wfShape s = true := by simpa [wfShape] using hw
    rcases conforms_optionalS_inv s v hc with rfl | ⟨w, rfl, hcw⟩
    · simp [toDyn, fromDyn, DynValue.isNone, stripLoc]
    · have hgw := hg
      simp only [goodOpt, Bool.and_eq_true, Bool.not_eq_true'] at hgw
      obtain ⟨hnn, hgw2⟩ := hgw
      have htd : toDyn (.optV (some w)) = toDyn w := by simp [toDyn]
      rw [htd, fromDyn, hnn]
      simp [roundtrip_val s w hw' hcw hgw2, stripLoc, Except.map]
  | .sequenceS s, v, hw, hc, hg => by
    obtain ⟨l, rfl, hcl⟩ := conforms_sequenceS_inv s v hc
    have hw' : wfShape s = true := by simpa [wfShape] using hw
    have hgl : goodOptList l = true := by simpa [goodOpt] using hg
    simp [toDyn, fromDyn, roundtrip_list s l hw' hcl hgl, stripLoc, Except.map]
  | .boxedS s, v, hw, hc, hg => by
    have hw' : wfShape s = true := by simpa [wfShape] using hw
    have hcs : conforms s v = true := by simpa [conforms] using hc
    have hb : fromDyn (.boxedS s) (toDyn v) = fromDyn s (toDyn v) := by simp [fromDyn]
    rw [hb]
    exact roundtrip_val s v hw' hcs hg
  | .nodeS alts, v, hw, hc, hg => by
    obtain ⟨kind, fields, loc, rfl, hca⟩ := conforms_nodeS_inv alts v hc
    have hw' : wfAlts alts = true := by simpa [wfShape] using hw
    have hgf : goodOptFields fields = true := by simpa [goodOpt] using hg
    have htd : toDyn (.nodeV kind fields loc) = .node kind (attachLoc loc (toDynFields fields)) := by
      simp [toDyn]
    have hsl : stripLoc (.nodeV kind fields loc) =
        .nodeV kind (stripLocFields fields) Option.none := by
      simp [stripLoc]
    rw [htd, hsl, fromDyn]
    exact roundtrip_alts alts kind fields loc hw' hca hgf
termination_by s v => (sizeOf s, sizeOf v)

theorem roundtrip_list : ∀ (s : FieldShape) (l : List FieldVal), wfShape s = true →
    conformsList s l = true → goodOptList l = true →
    fromDynList s (toDynList l) = .ok (stripLocList l)
  | _, [], _, _, _ => by simp [toDynList, fromDynList, stripLocList]
  | s, x :: xs, hw, hc, hg => by
    have hx : conforms s x = true ∧ conformsList s xs = true := by
      simpa [conformsList] using hc
    have hgx : goodOpt x = true ∧ goodOptList xs = true := by
      simpa [goodOptList] using hg
    rw [toDynList, fromDynList]
    simp [roundtrip_val s x hw hx.1 hgx.1, roundtrip_list s xs hw hx.2 hgx.2,
      stripLocList, bind, Except.bind]
termination_by s l => (sizeOf s, sizeOf l)

theorem roundtrip_alts : ∀ (alts : List (String × List (String × FieldShape))) (kind : String)
    (fields : List (String × FieldVal)) (loc : Option (Nat × Nat)),
    wfAlts alts = true → conformsAlts alts kind fields = true → goodOptFields fields = true →
    fromDynAlts alts kind (.node kind (attachLoc loc (toDynFields fields))) =
      .ok (.nodeV kind (stripLocFields fields) Option.none)
  | [], kind, fields, _, _, hc, _ => by simp [conformsAlts] at hc
  | (k, fs) :: rest, kind, fields, loc, hw, hc, hg => by
    obtain ⟨⟨hfn, hwf⟩, hwr⟩ :
        (fieldNamesOk (fs.map Prod.fst) = true ∧ wfFieldShapes fs = true) ∧
          wfAlts rest = true := by
      simpa [wfAlts] using hw
    by_cases hk : k = kind
    · subst hk
      have hcf : conformsFields fs fields = true := by
        simpa [conformsAlts] using hc
      have hnames : fields.map Prod.fst = fs.map Prod.fst := conformsFields_names fs fields hcf
      obtain ⟨⟨hnd, hlin⟩, hcol⟩ :
          ((fs.map Prod.fst).Nodup ∧ "lineno" ∉ fs.map Prod.fst) ∧
            "col_offset" ∉ fs.map Prod.fst := by
        simpa [fieldNamesOk] using hfn
      have hattr : ∀ n w, (n, w) ∈ fields →
          getAttr (attachLoc loc (toDynFields fields)) n = some (toDyn w) := by
        intro n w hmem
        have hnmem : n ∈ fields.map Prod.fst := List.mem_map.mpr ⟨(n, w), hmem, rfl⟩
        rw [hnames] at hnmem
        have h1 : n ≠ "lineno" := fun he => hlin (he ▸ hnmem)
        have h2 : n ≠ "col_offset" := fun he => hcol (he ▸ hnmem)
        rw [getAttr_attachLoc loc _ n h1 h2]
        exact getAttr_toDynFields fields n w hmem (hnames ▸ hnd)
      have hff := roundtrip_fields fs fields k (attachLoc loc (toDynFields fields)) hwf hcf hg hattr
      rw [fromDynAlts]
      simp [hff, Except.map]
    · have hcr : conformsAlts rest kind fields = true := by
        simpa [conformsAlts, hk] using hc
      rw [fromDynAlts]
      simp only [if_neg hk]
      exact roundtrip_alts rest kind fields loc hwr hcr hg
termination_by alts _ fields _ => (sizeOf alts, sizeOf fields)

theorem roundtrip_fields : ∀ (fs : List (String × FieldShape)) (fields : List (String × FieldVal))
    (cls : String) (attrs : List (String × DynValue)),
    wfFieldShapes fs = true → conformsFields fs fields = true → goodOptFields fields = true →
    (∀ n w, (n, w) ∈ fields → getAttr attrs n = some (toDyn w)) →
    fromDynFields fs (.node cls attrs) cls = .ok (stripLocFields fields)
  | [], fields, _, _, _, hc, _, _ => by
    cases fields with
    | nil => simp [fromDynFields, stripLocFields]
    | cons q rv => simp [conformsFields] at hc
  | (n, s) :: rs, fields, cls, attrs, hw, hc, hg, hattr => by
    cases fields with
    | nil => simp [conformsFields] at hc
    | cons q rv =>
      obtain ⟨n', w⟩ := q
      obtain ⟨⟨he, hcw⟩, hcr⟩ :
          ((n = n' ∧ conforms s w = true) ∧ conformsFields rs rv = true) := by
        simpa [conformsFields] using hc
      subst he
      obtain ⟨hws, hwrs⟩ : wfShape s = true ∧ wfFieldShapes rs = true := by
        simpa [wfFieldShapes] using hw
      obtain ⟨hgw, hgr⟩ : goodOpt w = true ∧ goodOptFields rv = true := by
        simpa [goodOptFields] using hg
      have hget : get_node_field (.node cls attrs) n cls = .ok (toDyn w) := by
        simp [get_node_field, DynValue.getAttribute, hattr n w (List.mem_cons_self _ _)]
      have hrest := roundtrip_fields rs rv cls attrs hwrs hcr hgr
        (fun a b hm => hattr a b (List.mem_cons_of_mem _ hm))
      rw [fromDynFields]
      simp [hget, roundtrip_val s w hws hcw hgw, hrest, stripLocFields, bind, Except.bind]
termination_by fs fields _ _ => (sizeOf fs, sizeOf fields)

end

theorem fromDynFields_congr (fs : List (String × FieldShape)) (cls : String)
    (A A' : List (String × DynValue))
    (hagree : ∀ p ∈ fs, getAttr A' p.1 = getAttr A p.1) :
    fromDynFields fs (.node cls A') cls = fromDynFields fs (.node cls A) cls := by
  induction fs with
  | nil => rw [fromDynFields, fromDynFields]
  | cons p rs ih =>
    obtain ⟨n, s⟩ := p
    have hg : getAttr A' n = getAttr A n := hagree (n, s) (List.mem_cons_self _ _)
    have hget : get_node_field (.node cls A') n cls = get_node_field (.node cls A) n cls := by
      simp [get_node_field, DynValue.getAttribute, DynValue.className, hg]
    rw [fromDynFields]
    conv =>
      rhs
      rw [fromDynFields]
    rw [hget, ih (fun q hq => hagree q (List.mem_cons_of_mem _ hq))]

theorem fromDynAlts_add_location (alts : List (String × List (String × FieldShape)))
    (cls : String) (A : List (String × DynValue)) (row col : Nat)
    (hw : wfAlts alts = true) :
    fromDynAlts alts cls (.node cls (node_add_location A row col)) =
      fromDynAlts alts cls (.node cls A) := by
  induction alts with
  | nil => rw [fromDynAlts, fromDynAlts]
  | cons a rest ih =>
    obtain ⟨k, fs⟩ := a
    obtain ⟨⟨hfn, _⟩, hwr⟩ :
        (fieldNamesOk (fs.map Prod.fst) = true ∧ wfFieldShapes fs = true) ∧
          wfAlts rest = true := by
      simpa [wfAlts] using hw
    obtain ⟨⟨_, hlin⟩, hcol⟩ :
        ((fs.map Prod.fst).Nodup ∧ "lineno" ∉ fs.map Prod.fst) ∧
          "col_offset" ∉ fs.map Prod.fst := by
      simpa [fieldNamesOk] using hfn
    have hagree : ∀ p ∈ fs, getAttr (node_add_location A row col) p.1 = getAttr A p.1 := by
      intro p hp
      have hpn : p.1 ∈ fs.map Prod.fst := List.mem_map.mpr ⟨p, hp, rfl⟩
      exact getAttr_node_add_location A row col p.1
        (fun he => hlin (he ▸ hpn)) (fun he => hcol (he ▸ hpn))
    rw [fromDynAlts]
    conv =>
      rhs
      rw [fromDynAlts]
    by_cases hk : k = cls
    · simp only [if_pos hk]
      rw [fromDynFields_congr fs cls A (node_add_location A row col) hagree]
    · simp only [if_neg hk]
      exact ih hwr

theorem fromDyn_ignores_location : ∀ (s : FieldShape) (cls : String)
    (A : List (String × DynValue)) (row col : Nat), wfShape s = true →
    fromDyn s (.node cls (node_add_location A row col)) = fromDyn s (.node cls A)
  | .constantS, cls, A, row, col, _ => by
    simp [fromDyn, Constant.ast_from_object]
  | .strS, cls, A, row, col, _ => by
    simp [fromDyn, String.ast_from_object]
  | .usizeS, cls, A, row, col, _ => by
    simp [fromDyn, UsizeNode.ast_from_object, usize_try_from_object]
  | .boolS, cls, A, row, col, _ => by
    simp [fromDyn, Bool.ast_from_object, i32_try_from_object]
  | .flagS, cls, A, row, col, _ => by
    simp [fromDyn, ConversionFlag.ast_from_object, i32_try_from_object, bind, Except.bind]
  | .optionalS s, cls, A, row, col, hw => by
    have hw' : wfShape s = true := by simpa [wfShape] using hw
    rw [fromDyn]
    conv =>
      rhs
      rw [fromDyn]
    simp only [DynValue.isNone]
    rw [fromDyn_ignores_location s cls A row col hw']
  | .sequenceS s, cls, A, row, col, _ => by
    have h1 : fromDyn (.sequenceS s) (.node cls (node_add_location A row col)) =
        .error (.typeError "object is not iterable") := by simp [fromDyn]
    have h2 : fromDyn (.sequenceS s) (.node cls A) =
        .error (.typeError "object is not iterable") := by simp [fromDyn]
    rw [h1, h2]
  | .boxedS s, cls, A, row, col, hw => by
    have hw' : wfShape s = true := by simpa [wfShape] using hw
    rw [fromDyn]
    conv =>
      rhs
      rw [fromDyn]
    exact fromDyn_ignores_location s cls A row col hw'
  | .nodeS alts, cls, A, row, col, hw => by
    have hw' : wfAlts alts = true := by simpa [wfShape] using hw
    rw [fromDyn]
    conv =>
      rhs
      rw [fromDyn]
    exact fromDynAlts_add_location alts cls A row col hw'

theorem fromDynAlts_first_match (alts : List (String × List (String × FieldShape)))
    (cls : String) (obj : DynValue) (fs : List (String × FieldShape))
    (hfind : alts.find? (fun a => a.1 = cls) = some (cls, fs)) :
    fromDynAlts alts cls obj =
      (fromDynFields fs obj cls).map (fun l => .nodeV cls l Option.none) := by
  induction alts with
  | nil => simp at hfind
  | cons a rest ih =>
    obtain ⟨k, gs⟩ := a
    by_cases hk : k = cls
    · subst hk
      rw [List.find?_cons_of_pos _ (by simp)] at hfind
      injection hfind with hf
      injection hf with hf1 hf2
      subst hf2
      rw [fromDynAlts, if_pos rfl]
    · rw [List.find?_cons_of_neg _ (by simp [hk])] at hfind
      rw [fromDynAlts, if_neg hk]
      exact ih hfind

theorem fromDynFields_missing (pre : List (String × FieldShape)) (name : String) (s : FieldShape)
    (post : List (String × FieldShape)) (cls : String) (attrs : List (String × DynValue))
    (hpre : ∀ p ∈ pre, ∃ w r, getAttr attrs p.1 = some w ∧ fromDyn p.2 w = .ok r)
    (hmiss : getAttr attrs name = Option.none) :
    fromDynFields (pre ++ (name, s) :: post) (.node cls attrs) cls =
      .error (.attributeError cls name) := by
  induction pre with
  | nil =>
    rw [List.nil_append, fromDynFields]
    have hget : get_node_field (.node cls attrs) name cls =
        .error (.attributeError cls name) := by
      simp [get_node_field, DynValue.getAttribute, DynValue.className, hmiss]
    simp [hget, bind, Except.bind]
  | cons p rs ih =>
    obtain ⟨n0, s0⟩ := p
    obtain ⟨w, r, hw, hr⟩ := hpre (n0, s0) (List.mem_cons_self _ _)
    have hget : get_node_field (.node cls attrs) n0 cls = .ok w := by
      simp [get_node_field, DynValue.getAttribute, hw]
    rw [List.cons_append, fromDynFields]
    simp [hget, hr, ih (fun q hq => hpre q (List.mem_cons_of_mem _ hq)), bind, Except.bind]

/-- The nine recognized constant classes: integer family (bool or int class),
float, complex, str, bytes, tuple, the `None` singleton, and ellipsis. -/
def recognizedConstantClass : DynValue → Bool
  | .int _ _ => true
  | .float _ => true
  | .complex _ _ => true
  | .str _ => true
  | .bytes _ => true
  | .tuple _ => true
  | DynValue.none => true
  | .ellipsis => true
  | _ => false

mutual

/-- Recognized class, recursively through tuple elements. -/
def deepRecognized : DynValue → Bool
  | .tuple elts => deepRecognizedList elts
  | o => recognizedConstantClass o

/-- `deepRecognized` over a tuple's elements. -/
def deepRecognizedList : List DynValue → Bool
  | [] => true
  | o :: os => deepRecognized o && deepRecognizedList os

end

theorem constant_from_unrecognized (o : DynValue)
    (h : recognizedConstantClass o = false) :
    Constant.ast_from_object o = .error (.typeError "unsupported type for constant") := by
  cases o <;> simp_all [recognizedConstantClass, Constant.ast_from_object]

mutual

theorem constant_from_recognized : ∀ o : DynValue, deepRecognized o = true →
    ∃ c, Constant.ast_from_object o = .ok c
  | .int b v, _ => ⟨if b then .bool (decide (v ≠ 0)) else .int v, rfl⟩
  | .float f, _ => ⟨.float f, rfl⟩
  | .complex re im, _ => ⟨.complex re im, rfl⟩
  | .str s, _ => ⟨.str s, rfl⟩
  | .bytes b, _ => ⟨.bytes b, rfl⟩
  | .tuple elts, h => by
    have hl : deepRecognizedList elts = true := by simpa [deepRecognized] using h
    obtain ⟨cs, hcs⟩ := constant_list_from_recognized elts hl
    exact ⟨.tuple cs, by simp [Constant.ast_from_object, hcs, Except.map]⟩
  | DynValue.none, _ => ⟨Constant.none, rfl⟩
  | .ellipsis, _ => ⟨.ellipsis, rfl⟩
  | .list l, h => by simp [deepRecognized, recognizedConstantClass] at h
  | .node cls attrs, h => by simp [deepRecognized, recognizedConstantClass] at h

theorem constant_list_from_recognized : ∀ l : List DynValue, deepRecognizedList l = true →
    ∃ cs, Constant.listFromObject l = .ok cs
  | [], _ => ⟨[], rfl⟩
  | o :: os, h => by
    have h2 : deepRecognized o = true ∧ deepRecognizedList os = true := by
      simpa [deepRecognizedList] using h
    obtain ⟨c, hc⟩ := constant_from_recognized o h2.1
    obtain ⟨cs, hcs⟩ := constant_list_from_recognized os h2.2
    exact ⟨c :: cs, by simp [Constant.listFromObject, hc, hcs, bind, Except.bind]⟩

end

theorem mapExcept_ok_of_elems {α : Type} (g : DynValue → Except AstError α)
    (toO : α → DynValue) (l : List α) (h : ∀ a ∈ l, g (toO a) = .ok a) :
    mapExcept g (l.map toO) = .ok l := by
  induction l with
  | nil => rfl
  | cons x xs ih =>
    rw [List.map_cons, mapExcept]
    simp [h x (List.mem_cons_self _ _), ih (fun a ha => h a (List.mem_cons_of_mem _ ha)),
      bind, Except.bind]

theorem mapExcept_first_error {α : Type} (g : DynValue → Except AstError α)
    (pre : List DynValue) (x : DynValue) (post : List DynValue) (e : AstError)
    (hpre : ∀ d ∈ pre, ∃ a, g d = .ok a) (hx : g x = .error e) :
    mapExcept g (pre ++ x :: post) = .error e := by
  induction pre with
  | nil =>
    rw [List.nil_append, mapExcept]
    simp [hx, bind, Except.bind]
  | cons d ds ih =>
    obtain ⟨a, ha⟩ := hpre d (List.mem_cons_self _ _)
    rw [List.cons_append, mapExcept]
    simp [ha, ih (fun q hq => hpre q (List.mem_cons_of_mem _ hq)), bind, Except.bind]

/-- C1 (amended): for every well-formed declared shape and every conforming
TypedNode value in which no optional field holds a present value encoding to
the dynamic null sentinel (such as `Some(Constant::None)`), converting to a
dynamic object graph with the generated `ast_to_object` and back with
`ast_from_object` yields the same tree up to erasing source locations, which
are not restored. -/
theorem ast_roundtrip_amended (s : FieldShape) (v : FieldVal) (hw : wfShape s = true)
    (hc : conforms s v = true) (hg : goodOpt v = true) :
    fromDyn s (toDyn v) = .ok (stripLoc v) :=
  roundtrip_val s v hw hc hg

/-- C1 counterexample: a tree whose constant payloads are all supported — a
node with one optional-constant field holding `Some(Constant::None)` — does
not round-trip: the dynamic null sentinel comes back as the absent value. -/
theorem ast_roundtrip_cex :
    wfShape (.nodeS [("Expr", [("value", .optionalS .constantS)])]) = true ∧
    conforms (.nodeS [("Expr", [("value", .optionalS .constantS)])])
      (.nodeV "Expr" [("value", .optV (some (.const Constant.none)))] Option.none) = true ∧
    fromDyn (.nodeS [("Expr", [("value", .optionalS .constantS)])])
      (toDyn (.nodeV "Expr" [("value", .optV (some (.const Constant.none)))] Option.none)) =
      .ok (.nodeV "Expr" [("value", .optV Option.none)] Option.none) ∧
    stripLoc (.nodeV "Expr" [("value", .optV (some (.const Constant.none)))] Option.none) =
      .nodeV "Expr" [("value", .optV (some (.const Constant.none)))] Option.none ∧
    FieldVal.nodeV "Expr" [("value", .optV Option.none)] Option.none ≠
      .nodeV "Expr" [("value", .optV (some (.const Constant.none)))] Option.none := by
  refine ⟨rfl, ?_, ?_, rfl, by simp⟩
  · simp [conforms, conformsAlts, conformsFields]
  · have htd : toDyn (.nodeV "Expr" [("value", .optV (some (.const Constant.none)))]
        Option.none) = .node "Expr" [("value", DynValue.none)] := rfl
    rw [htd]
    have h1 : fromDyn (.nodeS [("Expr", [("value", .optionalS .constantS)])])
        (.node "Expr" [("value", DynValue.none)]) =
        fromDynAlts [("Expr", [("value", .optionalS .constantS)])] "Expr"
          (.node "Expr" [("value", DynValue.none)]) := by
      simp [fromDyn]
    rw [h1, fromDynAlts, if_pos rfl, fromDynFields]
    have hget : get_node_field (.node "Expr" [("value", DynValue.none)]) "value" "Expr" =
        .ok DynValue.none := rfl
    rw [hget]
    have h2 : fromDyn (.optionalS .constantS) DynValue.none = .ok (.optV Option.none) := by
      simp [fromDyn, DynValue.isNone]
    simp [h2, fromDynFields, bind, Except.bind, Except.map]

/-- C1 witness: a concrete two-level tree (node, sequence, boxed constant,
optional, string scalar, with a source location on the inner node)
round-trips to itself with the inner location erased. -/
theorem ast_roundtrip_witness :
    fromDyn
      (.nodeS [("Module", [("body", .sequenceS (.nodeS [("Assign",
        [("targets", .sequenceS .strS), ("value", .boxedS .constantS),
         ("type_comment", .optionalS .strS)])]))])])
      (toDyn (.nodeV "Module" [("body", .seqV [.nodeV "Assign"
        [("targets", .seqV [.strV "x"]), ("value", .const (.int 1)),
         ("type_comment", .optV Option.none)] (some (1, 0))])] Option.none)) =
      .ok (.nodeV "Module" [("body", .seqV [.nodeV "Assign"
        [("targets", .seqV [.strV "x"]), ("value", .const (.int 1)),
         ("type_comment", .optV Option.none)] Option.none])] Option.none) := by
  have h := ast_roundtrip_amended
    (.nodeS [("Module", [("body", .sequenceS (.nodeS [("Assign",
      [("targets", .sequenceS .strS), ("value", .boxedS .constantS),
       ("type_comment", .optionalS .strS)])]))])])
    (.nodeV "Module" [("body", .seqV [.nodeV "Assign"
      [("targets", .seqV [.strV "x"]), ("value", .const (.int 1)),
       ("type_comment", .optV Option.none)] (some (1, 0))])] Option.none)
    (by rfl)
    (by simp [conforms, conformsAlts, conformsFields, conformsList])
    (by rfl)
  exact h.trans (by rfl)

/-- C2 (confirmed): on the from-dynamic path of the constant codec, an
integer-family object becomes `Bool(value != 0)` exactly when its class is
exactly the boolean class, and `Int(value)` otherwise; a plain integer 1 is
classified as `Int 1`, never as a Bool. -/
theorem constant_int_family_exact_bool :
    (∀ (isBoolClass : Bool) (v : Int), Constant.ast_from_object (.int isBoolClass v) =
      .ok (if isBoolClass then Constant.bool (decide (v ≠ 0)) else Constant.int v)) ∧
    Constant.ast_from_object (.int false 1) = .ok (Constant.int 1) ∧
    Constant.ast_from_object (.int true 1) = .ok (Constant.bool true) ∧
    Constant.ast_from_object (.int true 0) = .ok (Constant.bool false) :=
  ⟨fun _ _ => rfl, rfl, rfl, rfl⟩

/-- C3 (confirmed): when from-dynamic conversion of a node object of a
declared kind reaches a required field whose attribute is absent (all earlier
declared fields being present and convertible), it fails with the attribute
error naming both the node kind (the class `cls`, which the dispatch matched
against the declared kind) and the missing field. -/
theorem missing_field_error (alts : List (String × List (String × FieldShape)))
    (cls name : String) (s : FieldShape) (pre post : List (String × FieldShape))
    (attrs : List (String × DynValue))
    (hfind : alts.find? (fun a => a.1 = cls) = some (cls, pre ++ (name, s) :: post))
    (hpre : ∀ p ∈ pre, ∃ w r, getAttr attrs p.1 = some w ∧ fromDyn p.2 w = .ok r)
    (hmiss : getAttr attrs name = Option.none) :
    fromDyn (.nodeS alts) (.node cls attrs) = .error (.attributeError cls name) := by
  have h1 : fromDyn (.nodeS alts) (.node cls attrs) =
      fromDynAlts alts cls (.node cls attrs) := by
    simp [fromDyn]
  rw [h1, fromDynAlts_first_match alts cls _ _ hfind,
    fromDynFields_missing pre name s post cls attrs hpre hmiss]
  rfl

/-- C3 witness: an `Assign` object with no attributes fails with the
attribute error naming the kind `Assign` and the field `targets`. -/
theorem missing_field_error_witness :
    fromDyn (.nodeS [("Assign", [("targets", .sequenceS .strS)])]) (.node "Assign" []) =
      .error (.attributeError "Assign" "targets") :=
  missing_field_error [("Assign", [("targets", .sequenceS .strS)])] "Assign" "targets"
    (.sequenceS .strS) [] [] [] (by rfl) (by simp) (by rfl)

/-- C4 (confirmed): the optional combinator over the constant codec sends
both the absent value and the present `Constant::None` to the dynamic null
sentinel, and from-dynamic sends that sentinel to the absent value, so
`Some(Constant::None)` does not round-trip. -/
theorem optional_constant_none_collapse :
    OptionNode.ast_to_object Constant.ast_to_object (some Constant.none) = DynValue.none ∧
    OptionNode.ast_to_object Constant.ast_to_object Option.none = DynValue.none ∧
    OptionNode.ast_from_object Constant.ast_from_object
      (OptionNode.ast_to_object Constant.ast_to_object (some Constant.none)) =
      .ok Option.none ∧
    some Constant.none ≠ (Option.none : Option Constant) :=
  ⟨rfl, rfl, rfl, by simp⟩

/-- C5 counterexample: a tuple object containing a list has one of the nine
recognized classes (tuple), yet its conversion fails — so the claim that every
object of a recognized class succeeds is false as stated. -/
theorem constant_classifier_cex :
    recognizedConstantClass (.tuple [.list []]) = true ∧
    Constant.ast_from_object (.tuple [.list []]) =
      .error (.typeError "unsupported type for constant") :=
  ⟨rfl, rfl⟩

/-- C5 (amended): an object whose class is none of the nine recognized
constant classes fails with the `unsupported type for constant` error, and an
object succeeds whenever its class is recognized and, recursively, every
transitive tuple element is of a recognized class. -/
theorem constant_classifier_amended (o : DynValue) :
    (recognizedConstantClass o = false →
      Constant.ast_from_object o = .error (.typeError "unsupported type for constant")) ∧
    (deepRecognized o = true → ∃ c, Constant.ast_from_object o = .ok c) :=
  ⟨constant_from_unrecognized o, constant_from_recognized o⟩

/-- C5 witness: a list fails with the unsupported-constant error; a tuple of
an int and a str succeeds. -/
theorem constant_classifier_witness :
    Constant.ast_from_object (.list []) =
      .error (.typeError "unsupported type for constant") ∧
    ∃ c, Constant.ast_from_object (.tuple [.int false 7, .str "a"]) = .ok c :=
  ⟨(constant_classifier_amended (.list [])).1 rfl,
   (constant_classifier_amended (.tuple [.int false 7, .str "a"])).2 rfl⟩

/-- C6 counterexample: a negative integer below the i32 range fails the
initial signed read with an overflow error, not with the
`invalid conversion flag` error the claim requires for every negative
integer. -/
theorem conversion_flag_negative_overflow_cex :
    ConversionFlag.ast_from_object (.int false (-(2 ^ 40))) =
      .error (.overflowError "Int value cannot fit into i32") ∧
    ConversionFlag.ast_from_object (.int false (-(2 ^ 40))) ≠
      .error (.valueError "invalid conversion flag") := by
  have h1 : ConversionFlag.ast_from_object (.int false (-(2 ^ 40))) =
      .error (.overflowError "Int value cannot fit into i32") := by
    have hno : ¬ (-(2 ^ 31) ≤ (-(2 ^ 40) : Int) ∧ (-(2 ^ 40) : Int) < 2 ^ 31) := by norm_num
    simp [ConversionFlag.ast_from_object, i32_try_from_object, if_neg hno, bind, Except.bind]
  refine ⟨h1, ?_⟩
  rw [h1]
  simp

/-- C6 (amended): for the conversion-flag codec, ordinal −1 (and every
negative integer within the signed 32-bit range) fails with the
`invalid conversion flag` error, the highest defined ordinal (3) succeeds
with the matching variant, one past it (4) fails with the same error, and
to-dynamic emits the variant's ordinal as a small non-negative integer;
negative integers outside the i32 range fail the signed read instead. -/
theorem conversion_flag_bounds_amended :
    (∀ i : Int, -(2 ^ 31) ≤ i → i < 0 →
      ConversionFlag.ast_from_object (.int false i) =
        .error (.valueError "invalid conversion flag")) ∧
    ConversionFlag.ast_from_object (.int false 3) = .ok .flagRepr ∧
    ConversionFlag.ast_from_object (.int false 4) =
      .error (.valueError "invalid conversion flag") ∧
    (∀ f : ConversionFlag, ConversionFlag.ast_to_object f = .int false (f.toByte : Int) ∧
      f.toByte ≤ 255) := by
  refine ⟨?_, rfl, rfl, ?_⟩
  · intro i h1 h2
    have h1' : (-2147483648 : Int) ≤ i := by simpa using h1
    have hin : (-2147483648 : Int) ≤ i ∧ i < 2147483648 := ⟨h1', by omega⟩
    have hno : ¬ (0 ≤ i ∧ i ≤ 255) := fun hp => absurd h2 (not_lt.mpr hp.1)
    simp [ConversionFlag.ast_from_object, i32_try_from_object, if_pos hin, if_neg hno,
      bind, Except.bind]
  · intro f
    cases f <;> exact ⟨rfl, by decide⟩

/-- C6 witness: ordinal −1 fails with the invalid-conversion-flag error. -/
theorem conversion_flag_bounds_witness :
    ConversionFlag.ast_from_object (.int false (-1)) =
      .error (.valueError "invalid conversion flag") :=
  conversion_flag_bounds_amended.1 (-1) (by norm_num) (by norm_num)

/-- C7 counterexample: a dynamic integer at 2^31 is out of the i32 range the
boolean codec reads through, so from-dynamic fails with an overflow error
instead of yielding true as the claim requires for every nonzero integer. -/
theorem bool_codec_overflow_cex :
    Bool.ast_from_object (.int false (2 ^ 31)) =
      .error (.overflowError "Int value cannot fit into i32") ∧
    Bool.ast_from_object (.int false (2 ^ 31)) ≠ .ok true := by
  have h1 : Bool.ast_from_object (.int false (2 ^ 31)) =
      .error (.overflowError "Int value cannot fit into i32") := by
    have hno : ¬ (-(2 ^ 31) ≤ (2 ^ 31 : Int) ∧ (2 ^ 31 : Int) < 2 ^ 31) := by norm_num
    simp [Bool.ast_from_object, i32_try_from_object, if_neg hno, Except.map]
  refine ⟨h1, ?_⟩
  rw [h1]
  simp

/-- C7 (amended): the boolean scalar codec emits the int-class integer 1 for
true and 0 for false; from-dynamic of any integer-family object within the
signed 32-bit range yields true exactly when the value is nonzero, regardless
of whether the object's class is the boolean class. -/
theorem bool_codec_amended :
    Bool.ast_to_object true = .int false 1 ∧
    Bool.ast_to_object false = .int false 0 ∧
    (∀ (isBoolClass : Bool) (v : Int), -(2 ^ 31) ≤ v → v < 2 ^ 31 →
      Bool.ast_from_object (.int isBoolClass v) = .ok (decide (v ≠ 0))) := by
  refine ⟨rfl, rfl, ?_⟩
  intro b v h1 h2
  have h1' : (-2147483648 : Int) ≤ v := by simpa using h1
  have h2' : v < 2147483648 := by simpa using h2
  simp [Bool.ast_from_object, i32_try_from_object, if_pos (And.intro h1' h2'), Except.map]

/-- C7 witness: 1 under the boolean class and 5 under the int class come back
true, 0 comes back false. -/
theorem bool_codec_witness :
    Bool.ast_from_object (.int true 1) = .ok true ∧
    Bool.ast_from_object (.int false 0) = .ok false ∧
    Bool.ast_from_object (.int false 5) = .ok true :=
  ⟨(bool_codec_amended.2.2 true 1 (by norm_num) (by norm_num)).trans (by decide),
   (bool_codec_amended.2.2 false 0 (by norm_num) (by norm_num)).trans (by decide),
   (bool_codec_amended.2.2 false 5 (by norm_num) (by norm_num)).trans (by decide)⟩

/-- C8 (confirmed): the sequence combinator maps each element independently
into a fresh ordered dynamic list preserving input order; from-dynamic
iterates in order, reconstructs the identical sequence when every element
round-trips, and fails with exactly the first failing element's error. -/
theorem sequence_codec_ok {α : Type} (toObj : α → DynValue)
    (fromObj : DynValue → Except AstError α) (l : List α)
    (h : ∀ a ∈ l, fromObj (toObj a) = .ok a) :
    VecNode.ast_to_object toObj l = .list (l.map toObj) ∧
    VecNode.ast_from_object fromObj (VecNode.ast_to_object toObj l) = .ok l ∧
    (∀ (pre : List DynValue) (x : DynValue) (post : List DynValue) (e : AstError),
      (∀ d ∈ pre, ∃ a, fromObj d = .ok a) → fromObj x = .error e →
      VecNode.ast_from_object fromObj (.list (pre ++ x :: post)) = .error e) := by
  refine ⟨rfl, ?_, ?_⟩
  · show extract_elements_func fromObj (.list (l.map toObj)) = .ok l
    simp [extract_elements_func, mapExcept_ok_of_elems fromObj toObj l h]
  · intro pre x post e hpre hx
    show extract_elements_func fromObj (.list (pre ++ x :: post)) = .error e
    simp [extract_elements_func, mapExcept_first_error fromObj pre x post e hpre hx]

/-- C8 witness: the string sequence a, b, c converts to the ordered dynamic
list of the three strings and back to the identical sequence. -/
theorem sequence_codec_witness :
    VecNode.ast_to_object String.ast_to_object ["a", "b", "c"] =
      .list [.str "a", .str "b", .str "c"] ∧
    VecNode.ast_from_object String.ast_from_object
      (VecNode.ast_to_object String.ast_to_object ["a", "b", "c"]) = .ok ["a", "b", "c"] := by
  have h := sequence_codec_ok String.ast_to_object String.ast_from_object ["a", "b", "c"]
    (by decide)
  exact ⟨h.1, h.2.1⟩

/-- C9 (confirmed): `node_add_location` writes exactly the two attributes
`lineno = row` and `col_offset = col` into the attribute store, leaves every
other attribute unchanged, and no from-dynamic conversion over a well-formed
declared shape reads those two attributes back: its result on an object with
the location attached equals its result on the object without them. -/
theorem attach_location_effect (attrs : List (String × DynValue)) (row col : Nat) :
    getAttr (node_add_location attrs row col) "lineno" = some (.int false (row : Int)) ∧
    getAttr (node_add_location attrs row col) "col_offset" = some (.int false (col : Int)) ∧
    (∀ k, k ≠ "lineno" → k ≠ "col_offset" →
      getAttr (node_add_location attrs row col) k = getAttr attrs k) ∧
    (∀ (s : FieldShape) (cls : String), wfShape s = true →
      fromDyn s (.node cls (node_add_location attrs row col)) =
        fromDyn s (.node cls attrs)) := by
  refine ⟨?_, ?_, ?_, ?_⟩
  · unfold node_add_location
    rw [getAttr_setItem_ne _ _ _ _ (by decide), getAttr_setItem_self]
  · unfold node_add_location
    rw [getAttr_setItem_self]
  · intro k h1 h2
    exact getAttr_node_add_location attrs row col k h1 h2
  · intro s cls hw
    exact fromDyn_ignores_location s cls attrs row col hw

/-- C9 witness: attaching location (3, 0) to a store with one `value`
attribute sets `lineno` to 3 and leaves `value` unchanged. -/
theorem attach_location_effect_witness :
    getAttr (node_add_location [("value", DynValue.str "x")] 3 0) "lineno" =
      some (.int false 3) ∧
    getAttr (node_add_location [("value", DynValue.str "x")] 3 0) "value" =
      some (.str "x") := by
  refine ⟨(attach_location_effect [("value", DynValue.str "x")] 3 0).1, ?_⟩
  rw [(attach_location_effect [("value", DynValue.str "x")] 3 0).2.2.1 "value"
    (by decide) (by decide)]
  rfl

/-- C10 (confirmed): the dict display logic never recurses into a dict whose
display is already in progress — re-entering one yields the placeholder — and
a dict holding itself as a value displays as one level of entries with the
placeholder inside (the display function is total on every store, cyclic or
not, by construction). -/
theorem dict_repr_reentrancy (store : DictStore) (guard : List Nat) (id : Nat)
    (h : id ∈ guard) :
    dict_repr store guard id = "\x7b...\x7d" ∧
    dict_repr [(0, [(RVal.prim "k", RVal.dictRef 0)])] [] 0 = "\x7bk: \x7b...\x7d\x7d" := by
  constructor
  · rw [dict_repr, if_pos h]
  · rw [dict_repr, if_neg (by simp)]
    split
    · rename_i entries he
      have he0 : lookupDict [(0, [(RVal.prim "k", RVal.dictRef 0)])] 0 =
          some [(RVal.prim "k", RVal.dictRef 0)] := rfl
      rw [he0] at he
      injection he with he1
      subst he1
      rw [repr_parts, repr_parts, val_repr, val_repr, dict_repr, if_pos (by simp)]
      decide
    · rename_i he
      have he0 : lookupDict [(0, [(RVal.prim "k", RVal.dictRef 0)])] 0 =
          some [(RVal.prim "k", RVal.dictRef 0)] := rfl
      rw [he0] at he
      cases he

/-- C10 witness: re-entering the dict with identity 0 while it is already
being displayed yields the placeholder. -/
theorem dict_repr_reentrancy_witness :
    dict_repr [(0, [(RVal.prim "self", RVal.dictRef 0)])] [0] 0 = "\x7b...\x7d" :=
  (dict_repr_reentrancy [(0, [(RVal.prim "self", RVal.dictRef 0)])] [0] 0 (by simp)).1
